import Mathlib

/-!
Verification of the board-support firmware of the Nyfeu RISC-V SoC.

The definitions below are shallow embeddings of the C sources under
src/fpga/sw (hal_plic.c, irq_dispatch.c, hal_timer.h, hal_dma.c, hal_npu.c,
npu_lib.c, tiny_ml.c, boot.c, npu_server.c, mlp_server.c) together with the
behaviour of the memory-mapped peripherals.  The peripheral RTL is not part
of the source tree, so the hardware side (systolic array, DMA engine, timer
snapshot logic) is modelled from the specification; each such definition is
marked in its doc comment.
-/

set_option linter.unusedVariables false

/-! ## Machine-integer helpers -/

/-- Two's-complement reinterpretation of an integer as a signed 32-bit value:
int32_t arithmetic wraps modulo 2^32 into the range -2^31 .. 2^31 - 1. -/
def wrap32 (x : Int) : Int := (x + 2147483648) % 4294967296 - 2147483648

/-- Arithmetic shift right of a signed value by n bits: floor division by 2^n,
which is what the C right shift does on int32_t with this compiler. -/
def asr (x : Int) (n : Nat) : Int := Int.fdiv x (2 ^ n)

/-- clamp_i8 from tiny_ml.c: saturate a 32-bit value to the int8 range. -/
def clamp_i8 (x : Int) : Int := if x > 127 then 127 else if x < -128 then -128 else x

/-- Low byte of a signed value, as a machine byte (two's complement). -/
def toByte (x : Int) : Nat := (x % 256).toNat

/-- Reinterpret a byte as a signed int8 value: the effect of assigning a
masked byte to an int8_t variable, as npu_execute does with each lane. -/
def byteToI8 (b : Nat) : Int :=
  if b % 256 < 128 then ((b % 256 : Nat) : Int) else ((b % 256 : Nat) : Int) - 256

/-! ## PLIC driver (hal_plic.c) -/

/-- PLIC register state visible to the driver: the 32-bit enable bitmap for
context 0, the per-source priority array and the global threshold. -/
structure PlicState where
  enable : Nat
  priority : Nat → Nat
  threshold : Nat

def PLIC_MAX_SOURCES : Nat := 32

/-- hal_plic_enable from hal_plic.c: return unchanged unless 1 <= id < 32,
otherwise read-modify-write OR of bit source_id into the enable register. -/
def hal_plic_enable (source_id : Nat) (s : PlicState) : PlicState :=
  if source_id = 0 ∨ PLIC_MAX_SOURCES ≤ source_id then s
  else { s with enable := s.enable ||| (1 <<< source_id) }

/-- hal_plic_disable from hal_plic.c: return unchanged unless 1 <= id < 32,
otherwise read-modify-write AND with the 32-bit complement of bit source_id. -/
def hal_plic_disable (source_id : Nat) (s : PlicState) : PlicState :=
  if source_id = 0 ∨ PLIC_MAX_SOURCES ≤ source_id then s
  else { s with enable := s.enable &&& (4294967295 ^^^ (1 <<< source_id)) }

/-! ## Central trap dispatcher (irq_dispatch.c) and the self-test trap
handler (test_csr.c) -/

/-- One PLIC-visible action performed by the external-interrupt dispatcher. -/
inductive PlicEvent
  | claimRead (id : Nat)
  | handlerCall (id : Nat)
  | completeWrite (id : Nat)
deriving DecidableEq

/-- CPU-visible trap state: the mepc CSR plus the self-test globals
g_trap_counter and g_last_mcause of test_csr.c. -/
structure TrapCpu where
  mepc : Nat
  trapCount : Nat
  lastMcause : Nat
deriving DecidableEq

/-- The sequence of PLIC actions irq_dispatch_handler performs, as a function
of the mcause CSR, of the registered-handler table (true at id when
g_isr_table[id] is non-NULL) and of the source id the claim read returns.
For mcause 0x8000000B it claims, calls the registered handler when the id is
in range and the entry is non-NULL, and unconditionally completes; for any
other mcause it does nothing. -/
def irq_dispatch_events (mcause : Nat) (table : Nat → Bool) (claimed : Nat) :
    List PlicEvent :=
  if mcause = 0x8000000B then
    [PlicEvent.claimRead claimed] ++
      (if 0 < claimed ∧ claimed < PLIC_MAX_SOURCES ∧ table claimed
        then [PlicEvent.handlerCall claimed] else []) ++
      [PlicEvent.completeWrite claimed]
  else []

/-- irq_dispatch_handler from irq_dispatch.c: it reads mcause and, only for
machine-external interrupts, runs the claim/dispatch/complete sequence.  It
writes no CSR and no global, so the CPU trap state is returned unchanged. -/
def irq_dispatch_handler (mcause : Nat) (table : Nat → Bool) (claimed : Nat)
    (cpu : TrapCpu) : TrapCpu × List PlicEvent :=
  (cpu, irq_dispatch_events mcause table claimed)

/-- trap_handler from test_csr.c: increments g_trap_counter, records mcause
into g_last_mcause, advances mepc by 4 (32-bit register arithmetic), mret. -/
def trap_handler (cpu : TrapCpu) (mcause : Nat) : TrapCpu :=
  { mepc := (cpu.mepc + 4) % 4294967296,
    trapCount := (cpu.trapCount + 1) % 4294967296,
    lastMcause := mcause % 4294967296 }

/-! ## Timer driver (hal_timer.h) -/

/-- One access to a timer register. -/
inductive TimerAccess
  | writeCtrl (v : Nat)
  | readLo
  | readHi
deriving DecidableEq

def TIMER_CMD_ENABLE : Nat := 1
def TIMER_CMD_SNAPSHOT : Nat := 4

/-- The exact sequence of timer-register accesses hal_timer_get_cycles in
hal_timer.h performs: one control write that triggers the hardware snapshot,
then one read of the low shadow register, then one read of the high one. -/
def hal_timer_get_cycles_trace : List TimerAccess :=
  [TimerAccess.writeCtrl (TIMER_CMD_ENABLE ||| TIMER_CMD_SNAPSHOT),
   TimerAccess.readLo, TimerAccess.readHi]

/-- Modelled from the spec: the timer RTL is not under src/.  Per the register
description in hal_timer.h the SNAPSHOT command atomically copies the
free-running 64-bit counter into the two 32-bit shadow registers, which stay
static until the next snapshot.  hal_timer_get_cycles then reads lo and hi
once each and returns the 64-bit value ((uint64_t)hi << 32) | lo. -/
def hal_timer_get_cycles (counter : Nat) : Nat :=
  let shadow := counter % 18446744073709551616
  let lo := shadow % 4294967296
  let hi := shadow / 4294967296
  (hi <<< 32) ||| lo

/-! ## DMA driver (hal_dma.c) -/

/-- One write access to a DMA register. -/
inductive DmaAccess
  | writeSrc (v : Nat)
  | writeDst (v : Nat)
  | writeCnt (v : Nat)
  | writeCtrl (v : Nat)
deriving DecidableEq

def DMA_CTRL_START : Nat := 1
def DMA_CTRL_FIXED_DST : Nat := 2

/-- hal_dma_memcpy from hal_dma.c: after the initial busy wait (status reads
only), it unconditionally writes SRC, DST and CNT, then CTRL with the START
bit (plus FIXED_DST when requested), then busy-waits until completion.  The
trace lists the register writes in program order. -/
def hal_dma_memcpy (src dst size_words : Nat) (fixed_dst : Bool) : List DmaAccess :=
  [DmaAccess.writeSrc src, DmaAccess.writeDst dst, DmaAccess.writeCnt size_words,
   DmaAccess.writeCtrl (DMA_CTRL_START ||| (if fixed_dst then DMA_CTRL_FIXED_DST else 0))]

/-- Modelled from the spec: the DMA RTL is not under src/.  Per section 4.2 a
started transfer copies CNT words one by one, reading src, src+4, src+8, ...
and writing the destination, which advances by 4 per word unless it is fixed.
Memory is word-valued at byte addresses. -/
def dmaTransfer (mem : Nat → Nat) (src dst : Nat) (n : Nat) (fixed : Bool) :
    Nat → Nat :=
  match n with
  | 0 => mem
  | Nat.succ m =>
    dmaTransfer (Function.update mem dst (mem src)) (src + 4)
      (if fixed then dst else dst + 4) m fixed

/-! ## NPU HAL (hal_npu.c) -/

/-- The quantization parameter record npu_quant_params_t of hal_npu.h. -/
structure NpuQuantParams where
  mult : Nat
  shift : Nat
  zero_point : Nat
  relu : Bool

/-- The write-only NPU configuration registers hal_npu_configure touches. -/
structure NpuRegs where
  config : Nat
  quant_mult : Nat
  quant_cfg : Nat
  flags : Nat
deriving DecidableEq

def NPU_FLAG_RELU : Nat := 1

/-- hal_npu_configure from hal_npu.c: writes CONFIG = k_dim unconditionally
(no validation of any kind), then the quantization registers from the quant
record, or the bypass defaults when the quant pointer is NULL. -/
def hal_npu_configure (k_dim : Nat) (quant : Option NpuQuantParams)
    (s : NpuRegs) : NpuRegs :=
  match quant with
  | some q =>
    { s with
      config := k_dim,
      quant_mult := q.mult,
      quant_cfg := (q.shift &&& 0x1F) ||| ((q.zero_point &&& 0xFF) <<< 8),
      flags := if q.relu then NPU_FLAG_RELU else 0 }
  | none =>
    { s with config := k_dim, quant_mult := 1, quant_cfg := 0, flags := 0 }

/-- One data-path action of an NPU load helper. -/
inductive NpuAccess
  | fifoWrite (port : Nat) (value : Nat)
  | dmaBurst (port : Nat) (num_words : Nat)
deriving DecidableEq

def NPU_ADDR_FIFO_WEIGHTS : Nat := 0x90000010
def NPU_ADDR_FIFO_INPUTS : Nat := 0x90000014

/-- hal_npu_load_weights from hal_npu.c: returns immediately when num_words
is 0; in DMA mode it issues one fixed-destination burst into the weight FIFO
port, otherwise it stores the words one by one to the same port. -/
def hal_npu_load_weights (use_dma : Bool) (data : Nat → Nat) (num_words : Nat) :
    List NpuAccess :=
  if num_words = 0 then []
  else if use_dma then [NpuAccess.dmaBurst NPU_ADDR_FIFO_WEIGHTS num_words]
  else (List.range num_words).map fun i =>
    NpuAccess.fifoWrite NPU_ADDR_FIFO_WEIGHTS (data i)

/-- hal_npu_load_inputs from hal_npu.c: same shape as the weight loader, but
targeting the input FIFO port. -/
def hal_npu_load_inputs (use_dma : Bool) (data : Nat → Nat) (num_words : Nat) :
    List NpuAccess :=
  if num_words = 0 then []
  else if use_dma then [NpuAccess.dmaBurst NPU_ADDR_FIFO_INPUTS num_words]
  else (List.range num_words).map fun i =>
    NpuAccess.fifoWrite NPU_ADDR_FIFO_INPUTS (data i)

/-! ## npu_lib arithmetic contract (npu_lib.c plus the systolic array) -/

/-- The configuration npu_configure of npu_lib.c programs into the array:
shift, multiplier, zero point, one bias word per output lane, ReLU flag. -/
structure NpuCfg where
  shift : Nat
  mult : Int
  zero_point : Int
  bias : Fin 4 → Int
  relu : Bool

/-- Modelled from the spec: the systolic-array RTL and the npu_lib HAL layer
(hal_npu_config, hal_npu_set_ctrl, hal_npu_write_weight, hal_npu_write_input,
hal_npu_result_ready, the zero-argument hal_npu_read_output) are not under
src/.  Per section 4.4 the array computes, for output lane c, the accumulator
bias c + sum over r of in r * w r c, and post-processes each lane: multiply
by mult (wide intermediate, per the section 9 recommendation), arithmetic
shift right by shift, add the zero point, optional ReLU clamp at 0, saturate
to int8.  npu_test.c pins down exactly this behaviour, including the int8
saturation of raw sums (test_3_clamp: 2 * 100 saturates to 127). -/
def npuLane (cfg : NpuCfg) (w : Fin 4 → Fin 4 → Int) (v : Fin 4 → Int)
    (c : Fin 4) : Int :=
  let acc := cfg.bias c + ∑ r : Fin 4, v r * w r c
  let shifted := asr (acc * cfg.mult) cfg.shift + cfg.zero_point
  let activated := if cfg.relu ∧ shifted < 0 then 0 else shifted
  clamp_i8 activated

/-- Modelled from the spec: the packed 32-bit output word, byte c holding the
two's-complement int8 encoding of lane c (byte 0 = lane 0). -/
def npuOutWord (cfg : NpuCfg) (w : Fin 4 → Fin 4 → Int) (v : Fin 4 → Int) : Nat :=
  ∑ c : Fin 4, toByte (npuLane cfg w v c) * 256 ^ (c : Nat)

/-- npu_execute from npu_lib.c, at the arithmetic level: run the array on the
loaded 4x4 weight tile and the 4-wide input vector, read the packed output
word, and unpack the four lanes with (raw >> 8k) & 0xFF assigned to int8_t. -/
def npu_execute (cfg : NpuCfg) (w : Fin 4 → Fin 4 → Int) (v : Fin 4 → Int) :
    Fin 4 → Int :=
  fun c => byteToI8 ((npuOutWord cfg w v >>> (8 * (c : Nat))) &&& 0xFF)

/-- The raw-accumulation configuration ml_run_layer programs before tiling:
npu_configure(0, 1, zero_bias, 0) in tiny_ml.c, with zero point 0. -/
def rawCfg : NpuCfg :=
  { shift := 0, mult := 1, zero_point := 0, bias := fun _ => 0, relu := false }

/-! ## Tiny-ML engine (tiny_ml.c) -/

/-- layer_dense_t from tiny_ml.h.  The weight matrix is row-major with
out_neurons rows of in_features int8 entries; bias is one int32 per neuron. -/
structure LayerDense where
  weights : Nat → Int
  bias : Nat → Int
  in_features : Nat
  out_neurons : Nat
  output_shift : Nat
  output_mult : Nat
  use_relu : Bool

/-- Number of 4-wide groups the loops of ml_run_layer execute over a
dimension: the loop for (i = 0; i < n; i += 4) runs ceil(n / 4) times. -/
def numGroups (n : Nat) : Nat := (n + 3) / 4

/-- The 4x4 weight tile ml_run_layer assembles for output group og and input
group ig: entry (row, col) is weights[(og+col) * in_features + (ig+row)] when
both indices are in range and 0 otherwise (edge padding). -/
def w_chunk (L : LayerDense) (og ig : Nat) : Fin 4 → Fin 4 → Int :=
  fun row col =>
    if og + (col : Nat) < L.out_neurons ∧ ig + (row : Nat) < L.in_features
    then L.weights ((og + (col : Nat)) * L.in_features + (ig + (row : Nat)))
    else 0

/-- The 4-wide input slice ml_run_layer assembles for input group ig:
input[ig+k] when in range, 0 otherwise (edge padding). -/
def v_in (L : LayerDense) (input : Nat → Int) (ig : Nat) : Fin 4 → Int :=
  fun k => if ig + (k : Nat) < L.in_features then input (ig + (k : Nat)) else 0

/-- The initial software accumulator of ml_run_layer for output group og and
lane k: bias[og+k] for a real neuron, 0 for a padded lane. -/
def accInit (L : LayerDense) (og : Nat) (k : Fin 4) : Int :=
  if og + (k : Nat) < L.out_neurons then L.bias (og + (k : Nat)) else 0

/-- The software accumulator of ml_run_layer after the first t input groups:
acc[k] += res.val[k] in int32 arithmetic, where res is the npu_execute result
for the tile of input group number t (byte offset 4*t). -/
def accAfter (L : LayerDense) (input : Nat → Int) (og : Nat) (k : Fin 4) :
    Nat → Int
  | 0 => accInit L og k
  | t + 1 =>
    wrap32 (accAfter L input og k t +
      npu_execute rawCfg (w_chunk L og (4 * t)) (v_in L input (4 * t)) k)

/-- The final software accumulator for output group og and lane k, after all
input groups of the layer have been processed. -/
def mlAcc (L : LayerDense) (input : Nat → Int) (og : Nat) (k : Fin 4) : Int :=
  accAfter L input og k (numGroups L.in_features)

/-- The post-processing of ml_run_layer, in int32 arithmetic: scaled = acc *
(int32_t)mult; shifted = scaled >> shift; ReLU when flagged; clamp_i8. -/
def postProcess (L : LayerDense) (a : Int) : Int :=
  let scaled := wrap32 (a * wrap32 (L.output_mult : Int))
  let shifted := asr scaled L.output_shift
  let activated := if L.use_relu ∧ shifted < 0 then 0 else shifted
  clamp_i8 activated

/-- The output-array update one iteration of the outer loop of ml_run_layer
performs for output group og: lanes og+k with og+k < out_neurons receive the
post-processed accumulator; all other indices are left untouched. -/
def storeGroup (L : LayerDense) (input : Nat → Int) (og : Nat)
    (out : Nat → Int) : Nat → Int :=
  fun j =>
    if h : og ≤ j ∧ j < og + 4 ∧ j < L.out_neurons
    then postProcess L (mlAcc L input og ⟨j - og, by omega⟩)
    else out j

/-- The outer loop of ml_run_layer over the first t output groups. -/
def runGroups (L : LayerDense) (input : Nat → Int) :
    Nat → (Nat → Int) → (Nat → Int)
  | 0, out => out
  | t + 1, out => storeGroup L input (4 * t) (runGroups L input t out)

/-- ml_run_layer from tiny_ml.c, as a transformer of the output array: raw
NPU configuration, then for each output group, bias-initialised software
accumulation of the npu_execute tile results, then quantize / ReLU /
saturate into the output entries of real neurons. -/
def ml_run_layer (L : LayerDense) (input : Nat → Int) (out0 : Nat → Int) :
    Nat → Int :=
  runGroups L input (numGroups L.out_neurons) out0

/-- The raw (pre-saturation) sum a tile contributes to lane c: the exact
matrix-vector product of the assembled tile and input slice. -/
def tileRawSum (L : LayerDense) (input : Nat → Int) (og ig : Nat)
    (c : Fin 4) : Int :=
  ∑ r : Fin 4, v_in L input ig r * w_chunk L og ig r c

/-- The contribution of feature index i to neuron j, guarded by the feature
range: the padded entries contribute the literal 0. -/
def tileGuarded (L : LayerDense) (input : Nat → Int) (j i : Nat) : Int :=
  if i < L.in_features then input i * L.weights (j * L.in_features + i) else 0

/-- No tile of the layer saturates: every raw 4-wide tile sum fits in the
int8 range, so the 8-bit output path of the array is lossless. -/
def NoTileSat (L : LayerDense) (input : Nat → Int) : Prop :=
  ∀ og < numGroups L.out_neurons, ∀ t < numGroups L.in_features, ∀ c : Fin 4,
    -128 ≤ tileRawSum L input (4 * og) (4 * t) c ∧
      tileRawSum L input (4 * og) (4 * t) c ≤ 127

instance (L : LayerDense) (input : Nat → Int) : Decidable (NoTileSat L input) := by
  unfold NoTileSat; infer_instance

/-- The scalar reference of section 8 item 7, computed with the same 32-bit
integer arithmetic as the firmware (cpu_inference in npu_server.c is this
reference): acc = bias j + sum over i of in i * w j i, then
(acc * (int32_t)mult) >> shift, optional ReLU, saturation to int8. -/
def reference_out (L : LayerDense) (input : Nat → Int) (j : Nat) : Int :=
  postProcess L (wrap32 (L.bias j +
    ∑ i ∈ Finset.range L.in_features, input i * L.weights (j * L.in_features + i)))

/-! ## Command servers (npu_server.c and mlp_server.c) -/

/-- The terminal acknowledgment byte the main loop of npu_server.c sends for
a given command byte, read off its switch statement: C, L, I and T consume
their payload and send K (75); B (the benchmark trigger) replies with result
words and cycle counts, no single ack; P answers P; anything else falls into
the default case and is ignored. -/
def npu_server_ack (cmd : Nat) : Option Nat :=
  if cmd = 67 then some 75
  else if cmd = 76 then some 75
  else if cmd = 73 then some 75
  else if cmd = 84 then some 75
  else if cmd = 66 then none
  else if cmd = 80 then some 80
  else none

/-- The terminal acknowledgment byte the main loop of mlp_server.c sends for
a given command byte, read off its switch statement: L, B and I consume
their payload and send K (75); P answers O (79); R streams the report and
ends with data rather than a single ack; the switch has no case for any
other byte, so C and T in particular are silently ignored. -/
def mlp_server_ack (cmd : Nat) : Option Nat :=
  if cmd = 80 then some 79
  else if cmd = 76 then some 75
  else if cmd = 66 then some 75
  else if cmd = 73 then some 75
  else none

/-! ## Bootloader magic-word scanner (boot.c) -/

/-- The magic-word wait loop of boot.c as a byte scanner.  State s records
how many bytes of CA FE BA BE have just matched.  Each comparison of the C
code consumes a fresh byte: a mismatch at any depth falls back to the outer
loop, which reads the NEXT byte and compares it against CA, so the mismatched
byte itself is discarded without being re-examined.  Returns the rest of the
stream after the accepted occurrence, or none when the stream runs out. -/
def bootScan : Nat → List Nat → Option (List Nat)
  | _, [] => none
  | 0, b :: rest => if b = 0xCA then bootScan 1 rest else bootScan 0 rest
  | 1, b :: rest => if b = 0xFE then bootScan 2 rest else bootScan 0 rest
  | 2, b :: rest => if b = 0xBA then bootScan 3 rest else bootScan 0 rest
  | _, b :: rest => if b = 0xBE then some rest else bootScan 0 rest

/-- The byte boot.c emits right after the wait loop breaks: the single
acknowledgment character with code 33; nothing is emitted when the scanner
never accepts. -/
def bootMagicOut (l : List Nat) : List Nat :=
  match bootScan 0 l with
  | some _ => [33]
  | none => []

/-! ## Concrete layers and inputs used by witnesses and counterexamples -/

/-- A two-input, two-neuron layer (the first XOR layer of tiling_test.c in
miniature): all weights 1, bias 0 and -20, ReLU on, mult 1, shift 0. -/
def wLayer : LayerDense :=
  { weights := fun _ => 1,
    bias := fun j => if j = 0 then 0 else -20,
    in_features := 2,
    out_neurons := 2,
    output_shift := 0,
    output_mult := 1,
    use_relu := true }

/-- The all-20 input vector driving wLayer. -/
def wInput : Nat → Int := fun _ => 20

/-- A one-input, one-neuron layer whose single product 2 * 100 = 200
overflows the int8 output path of the array: weight 2, bias 0, mult 1,
shift 1, no ReLU. -/
def ceLayer : LayerDense :=
  { weights := fun _ => 2,
    bias := fun _ => 0,
    in_features := 1,
    out_neurons := 1,
    output_shift := 1,
    output_mult := 1,
    use_relu := false }

/-- The input vector 100 driving ceLayer. -/
def ceInput : Nat → Int := fun _ => 100

/-- A small concrete PLIC state for the frame-property witness. -/
def plicS0 : PlicState := { enable := 5, priority := fun _ => 0, threshold := 0 }

/-! ## Helper lemmas -/

lemma wrap32_wrap32_add (a b : Int) : wrap32 (wrap32 a + b) = wrap32 (a + b) := by
  unfold wrap32; omega

lemma wrap32_eq_self {a : Int} (h1 : -2147483648 ≤ a) (h2 : a < 2147483648) :
    wrap32 a = a := by
  unfold wrap32; omega

lemma clamp_i8_range (x : Int) : -128 ≤ clamp_i8 x ∧ clamp_i8 x ≤ 127 := by
  unfold clamp_i8; split <;> [omega; split <;> omega]

lemma clamp_i8_eq_self {x : Int} (h1 : -128 ≤ x) (h2 : x ≤ 127) : clamp_i8 x = x := by
  unfold clamp_i8; split <;> [omega; split <;> omega]

lemma toByte_lt (x : Int) : toByte x < 256 := by
  unfold toByte; omega

lemma byteToI8_toByte {x : Int} (h1 : -128 ≤ x) (h2 : x ≤ 127) :
    byteToI8 (toByte x) = x := by
  unfold byteToI8 toByte; split <;> omega

lemma npuLane_range (cfg : NpuCfg) (w : Fin 4 → Fin 4 → Int) (v : Fin 4 → Int)
    (c : Fin 4) : -128 ≤ npuLane cfg w v c ∧ npuLane cfg w v c ≤ 127 := by
  unfold npuLane; exact clamp_i8_range _

lemma npuOutWord_unpack (cfg : NpuCfg) (w : Fin 4 → Fin 4 → Int)
    (v : Fin 4 → Int) (c : Fin 4) :
    (npuOutWord cfg w v >>> (8 * (c : Nat))) &&& 0xFF = toByte (npuLane cfg w v c) := by
  have h0 := toByte_lt (npuLane cfg w v 0)
  have h1 := toByte_lt (npuLane cfg w v 1)
  have h2 := toByte_lt (npuLane cfg w v 2)
  have h3 := toByte_lt (npuLane cfg w v 3)
  have hword : npuOutWord cfg w v =
      toByte (npuLane cfg w v 0) + toByte (npuLane cfg w v 1) * 256 +
      toByte (npuLane cfg w v 2) * 65536 + toByte (npuLane cfg w v 3) * 16777216 := by
    unfold npuOutWord
    rw [Fin.sum_univ_four]
    norm_num [show ((0 : Fin 4) : Nat) = 0 from rfl, show ((1 : Fin 4) : Nat) = 1 from rfl,
      show ((2 : Fin 4) : Nat) = 2 from rfl, show ((3 : Fin 4) : Nat) = 3 from rfl]
  rcases c with ⟨k, hk⟩
  interval_cases k
  · show (npuOutWord cfg w v >>> (8 * ((0 : Fin 4) : Nat))) &&& 0xFF = toByte (npuLane cfg w v 0)
    rw [hword, show (0xFF : Nat) = 2 ^ 8 - 1 from rfl, Nat.and_pow_two_sub_one_eq_mod,
      Nat.shiftRight_eq_div_pow, show ((0 : Fin 4) : Nat) = 0 from rfl]
    norm_num
    omega
  · show (npuOutWord cfg w v >>> (8 * ((1 : Fin 4) : Nat))) &&& 0xFF = toByte (npuLane cfg w v 1)
    rw [hword, show (0xFF : Nat) = 2 ^ 8 - 1 from rfl, Nat.and_pow_two_sub_one_eq_mod,
      Nat.shiftRight_eq_div_pow, show ((1 : Fin 4) : Nat) = 1 from rfl]
    norm_num
    omega
  · show (npuOutWord cfg w v >>> (8 * ((2 : Fin 4) : Nat))) &&& 0xFF = toByte (npuLane cfg w v 2)
    rw [hword, show (0xFF : Nat) = 2 ^ 8 - 1 from rfl, Nat.and_pow_two_sub_one_eq_mod,
      Nat.shiftRight_eq_div_pow, show ((2 : Fin 4) : Nat) = 2 from rfl]
    norm_num
    omega
  · show (npuOutWord cfg w v >>> (8 * ((3 : Fin 4) : Nat))) &&& 0xFF = toByte (npuLane cfg w v 3)
    rw [hword, show (0xFF : Nat) = 2 ^ 8 - 1 from rfl, Nat.and_pow_two_sub_one_eq_mod,
      Nat.shiftRight_eq_div_pow, show ((3 : Fin 4) : Nat) = 3 from rfl]
    norm_num
    omega

lemma npu_execute_eq (cfg : NpuCfg) (w : Fin 4 → Fin 4 → Int) (v : Fin 4 → Int)
    (c : Fin 4) : npu_execute cfg w v c = npuLane cfg w v c := by
  unfold npu_execute
  rw [npuOutWord_unpack]
  exact byteToI8_toByte (npuLane_range cfg w v c).1 (npuLane_range cfg w v c).2

lemma asr_zero (x : Int) : asr x 0 = x := by
  simp [asr]

lemma npuLane_rawCfg (w : Fin 4 → Fin 4 → Int) (v : Fin 4 → Int) (c : Fin 4)
    (h1 : -128 ≤ ∑ r : Fin 4, v r * w r c) (h2 : (∑ r : Fin 4, v r * w r c) ≤ 127) :
    npuLane rawCfg w v c = ∑ r : Fin 4, v r * w r c := by
  unfold npuLane rawCfg
  simp only [zero_add, mul_one, asr_zero, add_zero, false_and, if_false]
  exact clamp_i8_eq_self h1 h2

lemma numGroups_ge (n : Nat) : n ≤ 4 * numGroups n := by
  unfold numGroups; omega

lemma numGroups_eq_zero {n : Nat} (h : numGroups n = 0) : n = 0 := by
  unfold numGroups at h; omega

lemma tileRawSum_eq_guarded (L : LayerDense) (input : Nat → Int) (og ig : Nat)
    (c : Fin 4) (hc : og + (c : Nat) < L.out_neurons) :
    tileRawSum L input og ig c =
      ∑ r : Fin 4, tileGuarded L input (og + (c : Nat)) (ig + (r : Nat)) := by
  unfold tileRawSum tileGuarded v_in w_chunk
  refine Finset.sum_congr rfl ?_
  intro r _
  by_cases h : ig + (r : Nat) < L.in_features
  · rw [if_pos h, if_pos ⟨hc, h⟩, if_pos h]
  · rw [if_neg h, if_neg (by tauto), if_neg h, mul_zero]

lemma sum_four_groups (f : Nat → Int) (G : Nat) :
    (∑ t ∈ Finset.range G, ∑ r : Fin 4, f (4 * t + (r : Nat))) =
      ∑ i ∈ Finset.range (4 * G), f i := by
  induction G with
  | zero => simp
  | succ n ih =>
    rw [Finset.sum_range_succ, ih, Fin.sum_univ_four,
      show 4 * (n + 1) = 4 * n + 1 + 1 + 1 + 1 from by omega,
      Finset.sum_range_succ, Finset.sum_range_succ, Finset.sum_range_succ,
      Finset.sum_range_succ,
      show ((0 : Fin 4) : Nat) = 0 from rfl, show ((1 : Fin 4) : Nat) = 1 from rfl,
      show ((2 : Fin 4) : Nat) = 2 from rfl, show ((3 : Fin 4) : Nat) = 3 from rfl,
      show 4 * n + 0 = 4 * n from by omega,
      show 4 * n + 1 + 1 = 4 * n + 2 from by omega,
      show 4 * n + 1 + 1 + 1 = 4 * n + 3 from by omega]
    ring

lemma guarded_total (L : LayerDense) (input : Nat → Int) (j : Nat) :
    (∑ i ∈ Finset.range (4 * numGroups L.in_features), tileGuarded L input j i) =
      ∑ i ∈ Finset.range L.in_features, input i * L.weights (j * L.in_features + i) := by
  have hsub : Finset.range L.in_features ⊆ Finset.range (4 * numGroups L.in_features) :=
    Finset.range_subset.mpr (numGroups_ge _)
  have h1 : (∑ i ∈ Finset.range L.in_features, tileGuarded L input j i) =
      ∑ i ∈ Finset.range (4 * numGroups L.in_features), tileGuarded L input j i := by
    refine Finset.sum_subset hsub ?_
    intro x hx hnx
    unfold tileGuarded
    rw [if_neg (by simpa using hnx)]
  rw [← h1]
  refine Finset.sum_congr rfl ?_
  intro i hi
  unfold tileGuarded
  rw [if_pos (Finset.mem_range.mp hi)]

lemma accAfter_closed (L : LayerDense) (input : Nat → Int) (og : Nat) (k : Fin 4)
    (lane : Nat → Int) (T : Nat) (hT : 1 ≤ T)
    (hstep : ∀ t < T,
      npu_execute rawCfg (w_chunk L og (4 * t)) (v_in L input (4 * t)) k = lane t) :
    accAfter L input og k T = wrap32 (accInit L og k + ∑ t ∈ Finset.range T, lane t) := by
  induction T, hT using Nat.le_induction with
  | base =>
    show wrap32 (accInit L og k + _) = _
    rw [hstep 0 (by omega), Finset.sum_range_one]
  | succ T hT ih =>
    show wrap32 (accAfter L input og k T + _) = _
    rw [hstep T (by omega), ih (fun t ht => hstep t (by omega)),
      wrap32_wrap32_add, Finset.sum_range_succ, add_assoc]

lemma runGroups_apply (L : LayerDense) (input : Nat → Int) (T : Nat)
    (out : Nat → Int) (j : Nat) :
    runGroups L input T out j =
      if h : j < L.out_neurons ∧ j < 4 * T
      then postProcess L (mlAcc L input (4 * (j / 4)) ⟨j % 4, by omega⟩)
      else out j := by
  induction T generalizing out with
  | zero => simp [runGroups]
  | succ n ih =>
    show storeGroup L input (4 * n) (runGroups L input n out) j = _
    unfold storeGroup
    by_cases hA : 4 * n ≤ j ∧ j < 4 * n + 4 ∧ j < L.out_neurons
    · rw [dif_pos hA, dif_pos ⟨hA.2.2, by omega⟩]
      have e1 : 4 * (j / 4) = 4 * n := by omega
      have e2 : ∀ (h1 : j % 4 < 4) (h2 : j - 4 * n < 4),
          (⟨j % 4, h1⟩ : Fin 4) = ⟨j - 4 * n, h2⟩ := by
        intro h1 h2
        exact Fin.ext (by show j % 4 = j - 4 * n; omega)
      rw [e1, e2]
    · rw [dif_neg hA, ih]
      by_cases hB : j < L.out_neurons ∧ j < 4 * n
      · rw [dif_pos hB, dif_pos ⟨hB.1, by omega⟩]
      · rw [dif_neg hB, dif_neg (by omega)]

lemma nat_or_eq_add {a b n : Nat} (h : b < 2 ^ n) :
    (a <<< n) ||| b = a * 2 ^ n + b := by
  apply Nat.eq_of_testBit_eq
  intro i
  rw [Nat.testBit_or, Nat.testBit_shiftLeft,
    show a * 2 ^ n + b = 2 ^ n * a + b from by ring,
    Nat.testBit_mul_pow_two_add a h i]
  by_cases hi : i < n
  · simp [hi, Nat.not_le.mpr hi]
  · simp only [hi, if_false, Nat.not_lt.mp hi, decide_eq_true_eq]
    rw [Nat.testBit_lt_two_pow (Nat.lt_of_lt_of_le h (Nat.pow_le_pow_right (by omega) (by omega)))]
    simp [Nat.not_lt.mp hi]

/-! ## Claim theorems -/

/-- C3 counterexample: hal_npu_configure(0, quant) does program the
accumulation depth K = 0 into the CONFIG register, at the concrete quiescent
register state and a concrete quantization record, refuting the claim that
the driver refuses k_dim = 0. -/
theorem hal_npu_configure_accepts_k_zero :
    (hal_npu_configure 0
      (some { mult := 1, shift := 8, zero_point := 0, relu := false })
      { config := 7, quant_mult := 0, quant_cfg := 0, flags := 0 }).config = 0 := by
  rfl

/-- C3 amended: hal_npu_configure performs no validation at all; for every
k_dim (k_dim = 0 included) and every quant argument it writes k_dim into the
CONFIG register unchanged. -/
theorem hal_npu_configure_programs_any_k (k_dim : Nat)
    (quant : Option NpuQuantParams) (s : NpuRegs) :
    (hal_npu_configure k_dim quant s).config = k_dim := by
  unfold hal_npu_configure
  cases quant <;> rfl

/-- C4: on the external-interrupt path (mcause 0x8000000B), every claim that
returns a non-zero source id is followed by exactly one complete write of the
same id: the trace starts with the claim read, ends with the complete write,
contains exactly one complete write and no complete for any other id; the
handler is only ever called for the claimed id with a registered (non-null)
table entry, and when no handler is registered the source is still completed
while the null entry is never invoked. -/
theorem external_irq_claim_complete_balance (table : Nat → Bool) (claimed : Nat)
    (h : claimed ≠ 0) :
    List.count (PlicEvent.completeWrite claimed)
        (irq_dispatch_events 0x8000000B table claimed) = 1
  ∧ (∀ i, PlicEvent.completeWrite i ∈ irq_dispatch_events 0x8000000B table claimed →
      i = claimed)
  ∧ (∀ i, PlicEvent.handlerCall i ∈ irq_dispatch_events 0x8000000B table claimed →
      i = claimed ∧ table i = true ∧ i < PLIC_MAX_SOURCES)
  ∧ (table claimed = false →
      PlicEvent.handlerCall claimed ∉ irq_dispatch_events 0x8000000B table claimed)
  ∧ PlicEvent.completeWrite claimed ∈ irq_dispatch_events 0x8000000B table claimed
  ∧ (irq_dispatch_events 0x8000000B table claimed).head? =
      some (PlicEvent.claimRead claimed)
  ∧ (irq_dispatch_events 0x8000000B table claimed).getLast? =
      some (PlicEvent.completeWrite claimed) := by
  unfold irq_dispatch_events
  rw [if_pos rfl]
  by_cases hcall : 0 < claimed ∧ claimed < PLIC_MAX_SOURCES ∧ table claimed = true
  · rw [if_pos hcall]
    refine ⟨?_, ?_, ?_, ?_, ?_, ?_, ?_⟩
    · simp [List.count_cons]
    · intro i hi
      simp at hi
      exact hi
    · intro i hi
      simp at hi
      subst hi
      exact ⟨rfl, hcall.2.2, hcall.2.1⟩
    · intro hf
      exact absurd hcall.2.2 (by simp [hf])
    · simp
    · rfl
    · rfl
  · rw [if_neg hcall]
    refine ⟨?_, ?_, ?_, ?_, ?_, ?_, ?_⟩
    · simp [List.count_cons]
    · intro i hi
      simp at hi
      exact hi
    · intro i hi
      simp at hi
    · intro hf
      simp
    · simp
    · rfl
    · rfl

/-- C4 witness: the dispatch trace for claimed source 7 with an empty handler
table completes source 7 exactly once and never calls a handler. -/
theorem external_irq_claim_complete_balance_witness :
    List.count (PlicEvent.completeWrite 7)
        (irq_dispatch_events 0x8000000B (fun _ => false) 7) = 1
  ∧ PlicEvent.handlerCall 7 ∉ irq_dispatch_events 0x8000000B (fun _ => false) 7 :=
  ⟨(external_irq_claim_complete_balance (fun _ => false) 7 (by decide)).1,
   (external_irq_claim_complete_balance (fun _ => false) 7 (by decide)).2.2.2.1 rfl⟩

/-- C5 counterexample: on a synchronous trap (mcause 11, machine ECALL, most
significant bit 0) the central trap dispatcher irq_dispatch_handler does not
advance mepc by 4: starting from mepc 100 it leaves mepc at 100, not 104, and
it records nothing.  The mepc-advance behaviour lives in the self-test trap
handler of test_csr.c, not in the central dispatcher. -/
theorem irq_dispatch_ignores_sync_traps :
    ¬ ((irq_dispatch_handler 11 (fun _ => false) 0
        { mepc := 100, trapCount := 0, lastMcause := 0 }).1.mepc = 100 + 4) := by
  decide

/-- C5 amended: the central dispatcher (irq_dispatch.c) handles only mcause
0x8000000B; on every synchronous trap (most significant bit 0) it performs no
PLIC access and leaves the CPU trap state, mepc included, unchanged.  The
behaviour the claim describes is implemented by the self-test trap handler of
test_csr.c: it records the cause into g_last_mcause, increments the trap
counter, and advances mepc by 4 so that execution resumes at the instruction
following the trapping one. -/
theorem sync_trap_handling_split (mcause : Nat) (table : Nat → Bool)
    (claimed : Nat) (cpu : TrapCpu) (hsync : mcause < 2147483648) :
    irq_dispatch_handler mcause table claimed cpu = (cpu, [])
  ∧ (trap_handler cpu mcause).lastMcause = mcause
  ∧ (trap_handler cpu mcause).trapCount = (cpu.trapCount + 1) % 4294967296
  ∧ (cpu.mepc + 4 < 4294967296 → (trap_handler cpu mcause).mepc = cpu.mepc + 4) := by
  refine ⟨?_, ?_, rfl, ?_⟩
  · unfold irq_dispatch_handler irq_dispatch_events
    rw [if_neg (by omega)]
  · show mcause % 4294967296 = mcause
    omega
  · intro hm
    show (cpu.mepc + 4) % 4294967296 = cpu.mepc + 4
    omega

/-- C5 witness: for the concrete ECALL cause 11 and a CPU at mepc 100, the
central dispatcher leaves the state untouched while the self-test handler
records cause 11 and advances mepc to 104. -/
theorem sync_trap_handling_split_witness :
    irq_dispatch_handler 11 (fun _ => false) 0
        { mepc := 100, trapCount := 0, lastMcause := 0 } =
      ({ mepc := 100, trapCount := 0, lastMcause := 0 }, [])
  ∧ (trap_handler { mepc := 100, trapCount := 0, lastMcause := 0 } 11).lastMcause = 11
  ∧ (trap_handler { mepc := 100, trapCount := 0, lastMcause := 0 } 11).mepc = 100 + 4 :=
  ⟨(sync_trap_handling_split 11 (fun _ => false) 0 _ (by decide)).1,
   (sync_trap_handling_split 11 (fun _ => false) 0 _ (by decide)).2.1,
   (sync_trap_handling_split 11 (fun _ => false) 0 _ (by decide)).2.2.2 (by decide)⟩

/-- C6 counterexample: the access trace of hal_timer_get_cycles contains
exactly one read of the high half and its first access is not a high-half
read, so the function does not follow the claimed hi, lo, hi torn-read
sequence (which requires at least two high reads, the first access being
one of them).  It uses the hardware snapshot command instead. -/
theorem timer_read_is_snapshot_not_hi_lo_hi :
    List.count TimerAccess.readHi hal_timer_get_cycles_trace = 1
  ∧ hal_timer_get_cycles_trace.head? ≠ some TimerAccess.readHi := by
  decide

/-- C6 amended: hal_timer_get_cycles obtains an atomic 64-bit value by a
different protocol: it writes the SNAPSHOT command (keeping ENABLE set), then
reads the frozen low and high shadow registers once each, in that order; the
assembled value equals the counter value at the snapshot exactly. -/
theorem timer_snapshot_read_exact (counter : Nat)
    (h : counter < 18446744073709551616) :
    hal_timer_get_cycles counter = counter
  ∧ hal_timer_get_cycles_trace =
      [TimerAccess.writeCtrl 5, TimerAccess.readLo, TimerAccess.readHi] := by
  refine ⟨?_, rfl⟩
  unfold hal_timer_get_cycles
  rw [nat_or_eq_add (by omega)]
  omega

/-- C6 witness: a concrete counter value with a non-zero high half reads back
exactly. -/
theorem timer_snapshot_read_exact_witness :
    hal_timer_get_cycles 4294967301 = 4294967301 :=
  (timer_snapshot_read_exact 4294967301 (by norm_num)).1

/-- C7 counterexample: hal_dma_memcpy with a word count of 0 is not a no-op
at the register level: it still programs the registers and issues the START
command (CTRL write with value 1), refuting the part of the claim that says
no transfer is started. -/
theorem dma_memcpy_zero_still_starts :
    DmaAccess.writeCtrl 1 ∈ hal_dma_memcpy 0x80010000 0x80011000 0 false := by
  decide

/-- C7 amended: the NPU load helpers really are no-ops for zero word counts
(no FIFO write, no DMA start, in either data-path mode), and a zero-length
DMA transfer writes no destination word; but hal_dma_memcpy itself does not
special-case 0: it still writes SRC, DST, CNT = 0 and CTRL with the START
bit. -/
theorem zero_word_operations (use_dma : Bool) (data : Nat → Nat)
    (mem : Nat → Nat) (src dst : Nat) (fixed : Bool) :
    hal_npu_load_weights use_dma data 0 = []
  ∧ hal_npu_load_inputs use_dma data 0 = []
  ∧ dmaTransfer mem src dst 0 fixed = mem
  ∧ hal_dma_memcpy src dst 0 fixed =
      [DmaAccess.writeSrc src, DmaAccess.writeDst dst, DmaAccess.writeCnt 0,
       DmaAccess.writeCtrl (DMA_CTRL_START ||| (if fixed then DMA_CTRL_FIXED_DST else 0))] :=
  ⟨rfl, rfl, rfl, rfl⟩

/-- C8 counterexample: no server in the sources implements the full section-6
reply table.  On the npu_server the command byte B (66) is the benchmark
trigger, which replies with result words and cycle counts rather than with
the ack byte K (75); on the mlp_server the bytes C (67) and T (84) have no
switch case at all and are silently ignored, so no K is sent for them. -/
theorem server_ack_table_counterexample :
    npu_server_ack 66 ≠ some 75
  ∧ mlp_server_ack 67 = none
  ∧ mlp_server_ack 84 = none := by
  decide

/-- C8 amended: each server acknowledges the commands it actually implements.
The npu_server replies K (75) after consuming the payload of C, L, I and T
and answers P (80) to the ping; the mlp_server replies K after L, B and I and
answers O (79) to the ping.  The npu_server command B is its benchmark
trigger and sends no single ack byte, and the mlp_server ignores C and T.
Every byte outside a server's command set is silently ignored (no reply) and
the server keeps looping. -/
theorem server_ack_table (c : Nat)
    (hn : c ∉ ([67, 76, 73, 84, 66, 80] : List Nat))
    (hm : c ∉ ([80, 76, 66, 73, 82] : List Nat)) :
    (npu_server_ack 67 = some 75 ∧ npu_server_ack 76 = some 75
      ∧ npu_server_ack 73 = some 75 ∧ npu_server_ack 84 = some 75
      ∧ npu_server_ack 80 = some 80)
  ∧ (mlp_server_ack 76 = some 75 ∧ mlp_server_ack 66 = some 75
      ∧ mlp_server_ack 73 = some 75 ∧ mlp_server_ack 80 = some 79)
  ∧ npu_server_ack 66 = none
  ∧ (mlp_server_ack 67 = none ∧ mlp_server_ack 84 = none)
  ∧ npu_server_ack c = none
  ∧ mlp_server_ack c = none := by
  simp only [List.mem_cons, List.not_mem_nil, or_false, not_or] at hn hm
  refine ⟨by decide, by decide, by decide, by decide, ?_, ?_⟩
  · unfold npu_server_ack
    rw [if_neg hn.1, if_neg hn.2.1, if_neg hn.2.2.2.1, if_neg hn.2.2.1,
      if_neg hn.2.2.2.2.1, if_neg hn.2.2.2.2.2]
  · unfold mlp_server_ack
    rw [if_neg hm.1, if_neg hm.2.1, if_neg hm.2.2.1, if_neg hm.2.2.2.1]

/-- C8 witness: the byte Z (90) is outside both command sets and gets no
reply from either server. -/
theorem server_ack_table_witness :
    npu_server_ack 90 = none ∧ mlp_server_ack 90 = none :=
  ⟨(server_ack_table 90 (by decide) (by decide)).2.2.2.2.1,
   (server_ack_table 90 (by decide) (by decide)).2.2.2.2.2⟩

/-- C9 counterexample: the stream CA CA FE BA BE contains the contiguous
magic sequence CA FE BA BE (starting at its second byte), yet the wait loop
of boot.c never terminates on it: the second CA is consumed by the failed
comparison against FE and is not re-examined, so the scanner runs off the
end without accepting and no acknowledgment is emitted. -/
theorem boot_magic_scan_miss :
    ([202, 202, 254, 186, 190] : List Nat) = [202] ++ [202, 254, 186, 190] ++ []
  ∧ bootScan 0 [202, 202, 254, 186, 190] = none
  ∧ bootMagicOut [202, 202, 254, 186, 190] = [] := by
  decide

/-- C9 amended: the wait loop terminates and then emits the byte 33 for every
stream in which an occurrence of CA FE BA BE is preceded only by bytes that
are not CA (so that no partial match can swallow the start of the
occurrence); it consumes exactly the prefix and that occurrence. -/
theorem boot_magic_scan_accepts (pre rest : List Nat)
    (hpre : ∀ b ∈ pre, b ≠ 202) :
    bootScan 0 (pre ++ 202 :: 254 :: 186 :: 190 :: rest) = some rest
  ∧ bootMagicOut (pre ++ 202 :: 254 :: 186 :: 190 :: rest) = [33] := by
  have hscan : bootScan 0 (pre ++ 202 :: 254 :: 186 :: 190 :: rest) = some rest := by
    induction pre with
    | nil => simp [bootScan]
    | cons b pre ih =>
      have hb : b ≠ 202 := hpre b (by simp)
      show bootScan 0 (b :: (pre ++ 202 :: 254 :: 186 :: 190 :: rest)) = some rest
      rw [show bootScan 0 (b :: (pre ++ 202 :: 254 :: 186 :: 190 :: rest)) =
          if b = 202 then bootScan 1 (pre ++ 202 :: 254 :: 186 :: 190 :: rest)
          else bootScan 0 (pre ++ 202 :: 254 :: 186 :: 190 :: rest) from rfl,
        if_neg hb]
      exact ih (fun x hx => hpre x (by simp [hx]))
  refine ⟨hscan, ?_⟩
  unfold bootMagicOut
  rw [hscan]

/-- C9 witness: a two-byte garbage prefix without CA, then the magic word,
then one more byte: the scanner accepts, leaves exactly the trailing byte,
and the acknowledgment 33 is emitted. -/
theorem boot_magic_scan_accepts_witness :
    bootScan 0 ([66, 79] ++ 202 :: 254 :: 186 :: 190 :: [7]) = some [7]
  ∧ bootMagicOut ([66, 79] ++ 202 :: 254 :: 186 :: 190 :: [7]) = [33] :=
  boot_magic_scan_accepts [66, 79] [7] (by decide)

/-- C10: for 1 <= id < 32, hal_plic_enable sets exactly bit id of the enable
bitmap (every other bit, every priority and the threshold are unchanged),
hal_plic_disable clears exactly bit id with the same frame, and for id = 0 or
id >= 32 both calls leave the whole PLIC state unchanged.  The enable bitmap
is a 32-bit register, hence the bound on s.enable. -/
theorem hal_plic_enable_disable_frame (s : PlicState) (id : Nat)
    (hs : s.enable < 4294967296) (h1 : 1 ≤ id) (h2 : id < 32) :
    ((hal_plic_enable id s).enable.testBit id = true
      ∧ (∀ j, j ≠ id → (hal_plic_enable id s).enable.testBit j = s.enable.testBit j)
      ∧ (hal_plic_enable id s).priority = s.priority
      ∧ (hal_plic_enable id s).threshold = s.threshold)
  ∧ ((hal_plic_disable id s).enable.testBit id = false
      ∧ (∀ j, j ≠ id → (hal_plic_disable id s).enable.testBit j = s.enable.testBit j)
      ∧ (hal_plic_disable id s).priority = s.priority
      ∧ (hal_plic_disable id s).threshold = s.threshold)
  ∧ (∀ i, i = 0 ∨ 32 ≤ i → hal_plic_enable i s = s ∧ hal_plic_disable i s = s) := by
  have hguard : ¬(id = 0 ∨ PLIC_MAX_SOURCES ≤ id) := by
    unfold PLIC_MAX_SOURCES; omega
  have hen : (hal_plic_enable id s).enable = s.enable ||| 2 ^ id := by
    unfold hal_plic_enable
    rw [if_neg hguard, Nat.one_shiftLeft]
  have hdis : (hal_plic_disable id s).enable = s.enable &&& (4294967295 ^^^ 2 ^ id) := by
    unfold hal_plic_disable
    rw [if_neg hguard, Nat.one_shiftLeft]
  refine ⟨⟨?_, ?_, ?_, ?_⟩, ⟨?_, ?_, ?_, ?_⟩, ?_⟩
  · rw [hen, Nat.testBit_or, Nat.testBit_two_pow_self, Bool.or_true]
  · intro j hj
    rw [hen, Nat.testBit_or, Nat.testBit_two_pow_of_ne (fun he => hj he.symm),
      Bool.or_false]
  · unfold hal_plic_enable
    rw [if_neg hguard]
  · unfold hal_plic_enable
    rw [if_neg hguard]
  · rw [hdis, Nat.testBit_and, Nat.testBit_xor,
      show (4294967295 : Nat) = 2 ^ 32 - 1 from rfl, Nat.testBit_two_pow_sub_one,
      Nat.testBit_two_pow_self]
    simp [h2]
  · intro j hj
    rw [hdis, Nat.testBit_and, Nat.testBit_xor,
      show (4294967295 : Nat) = 2 ^ 32 - 1 from rfl, Nat.testBit_two_pow_sub_one,
      Nat.testBit_two_pow_of_ne (fun he => hj he.symm)]
    by_cases hj32 : j < 32
    · simp [hj32]
    · have hzero : s.enable.testBit j = false := by
        apply Nat.testBit_lt_two_pow
        calc s.enable < 4294967296 := hs
          _ = 2 ^ 32 := rfl
          _ ≤ 2 ^ j := Nat.pow_le_pow_right (by omega) (by omega)
      simp [hj32, hzero]
  · unfold hal_plic_disable
    rw [if_neg hguard]
  · unfold hal_plic_disable
    rw [if_neg hguard]
  · intro i hi
    have hg : i = 0 ∨ PLIC_MAX_SOURCES ≤ i := by unfold PLIC_MAX_SOURCES; omega
    unfold hal_plic_enable hal_plic_disable
    rw [if_pos hg, if_pos hg]
    exact ⟨rfl, rfl⟩

/-- C10 witness: on the concrete state with enable bitmap 5, enabling source
3 sets bit 3 while keeping bit 2, and disabling source 3 clears bit 3. -/
theorem hal_plic_enable_disable_frame_witness :
    (hal_plic_enable 3 plicS0).enable.testBit 3 = true
  ∧ (hal_plic_enable 3 plicS0).enable.testBit 2 = plicS0.enable.testBit 2
  ∧ (hal_plic_disable 3 plicS0).enable.testBit 3 = false :=
  ⟨(hal_plic_enable_disable_frame plicS0 3 (by decide) (by decide) (by decide)).1.1,
   (hal_plic_enable_disable_frame plicS0 3 (by decide) (by decide) (by decide)).1.2.1
      2 (by decide),
   (hal_plic_enable_disable_frame plicS0 3 (by decide) (by decide) (by decide)).2.1.1⟩

lemma mlAcc_eq_ref (L : LayerDense) (input : Nat → Int) (og' : Nat) (k : Fin 4)
    (hb : ∀ j, j < L.out_neurons → -2147483648 ≤ L.bias j ∧ L.bias j < 2147483648)
    (hsat : NoTileSat L input)
    (hog : og' < numGroups L.out_neurons)
    (hreal : 4 * og' + (k : Nat) < L.out_neurons) :
    mlAcc L input (4 * og') k =
      wrap32 (L.bias (4 * og' + (k : Nat)) +
        ∑ i ∈ Finset.range L.in_features,
          input i * L.weights ((4 * og' + (k : Nat)) * L.in_features + i)) := by
  have hinit : accInit L (4 * og') k = L.bias (4 * og' + (k : Nat)) := by
    unfold accInit
    rw [if_pos hreal]
  rcases Nat.eq_zero_or_pos (numGroups L.in_features) with h0 | hpos
  · have hf : L.in_features = 0 := numGroups_eq_zero h0
    unfold mlAcc
    rw [h0]
    show accInit L (4 * og') k = _
    rw [hinit, hf, Finset.range_zero, Finset.sum_empty, add_zero]
    exact (wrap32_eq_self (hb _ hreal).1 (hb _ hreal).2).symm
  · have hstep : ∀ t < numGroups L.in_features,
        npu_execute rawCfg (w_chunk L (4 * og') (4 * t)) (v_in L input (4 * t)) k =
          tileRawSum L input (4 * og') (4 * t) k := by
      intro t ht
      rw [npu_execute_eq]
      have hbd := hsat og' hog t ht k
      exact npuLane_rawCfg _ _ _ hbd.1 hbd.2
    unfold mlAcc
    rw [accAfter_closed L input (4 * og') k
        (fun t => tileRawSum L input (4 * og') (4 * t) k)
        (numGroups L.in_features) hpos hstep, hinit]
    congr 1
    congr 1
    have h1 : ∀ t ∈ Finset.range (numGroups L.in_features),
        tileRawSum L input (4 * og') (4 * t) k =
          ∑ r : Fin 4, tileGuarded L input (4 * og' + (k : Nat)) (4 * t + (r : Nat)) :=
      fun t _ => tileRawSum_eq_guarded L input (4 * og') (4 * t) k hreal
    rw [Finset.sum_congr rfl h1,
      sum_four_groups (fun i => tileGuarded L input (4 * og' + (k : Nat)) i)
        (numGroups L.in_features),
      guarded_total L input (4 * og' + (k : Nat))]

/-- C1 counterexample: a one-input, one-neuron layer with weight 2, input
100, mult 1, shift 1: the reference output is sat_i8((0 + 200) >> 1) = 100,
but ml_run_layer feeds the tile sum 200 through the int8 output path of the
array, which saturates it to 127, so the engine produces 127 >> 1 = 63.  The
outputs are not bit-identical. -/
theorem ml_run_layer_tile_saturation :
    ml_run_layer ceLayer ceInput (fun _ => 0) 0 = 63
  ∧ reference_out ceLayer ceInput 0 = 100
  ∧ ml_run_layer ceLayer ceInput (fun _ => 0) 0 ≠ reference_out ceLayer ceInput 0 := by
  decide

/-- C1 amended: ml_run_layer is bit-identical to the scalar reference for
every dense layer and input in which no 4-wide tile partial sum overflows the
int8 range [-128, 127] (the width of the per-lane NPU output path), the bias
values being int32.  Under that proviso every tile lane returns its exact
partial sum, the software accumulator equals bias plus the full product sum
in int32 arithmetic, and the identical post-processing pipelines agree on
every real output index. -/
theorem ml_run_layer_matches_reference (L : LayerDense) (input out0 : Nat → Int)
    (hb : ∀ j, j < L.out_neurons → -2147483648 ≤ L.bias j ∧ L.bias j < 2147483648)
    (hsat : NoTileSat L input) :
    ∀ j, j < L.out_neurons → ml_run_layer L input out0 j = reference_out L input j := by
  intro j hj
  have h4 : j < 4 * numGroups L.out_neurons := lt_of_lt_of_le hj (numGroups_ge _)
  unfold ml_run_layer
  rw [runGroups_apply, dif_pos ⟨hj, h4⟩]
  have hlem := mlAcc_eq_ref L input (j / 4) ⟨j % 4, by omega⟩ hb hsat
    (by unfold numGroups at h4 ⊢; omega)
    (by show 4 * (j / 4) + j % 4 < L.out_neurons; omega)
  have hix : 4 * (j / 4) + ((⟨j % 4, by omega⟩ : Fin 4) : Nat) = j := by
    show 4 * (j / 4) + j % 4 = j
    omega
  rw [hix] at hlem
  rw [hlem]
  rfl

/-- C1 witness: a 2-input, 2-neuron all-ones layer with bias 0 and -20, ReLU
on and inputs 20, whose tile sums (40) all fit in int8: the engine output for
neuron 0 is bit-identical to the reference. -/
theorem ml_run_layer_matches_reference_witness :
    ml_run_layer wLayer wInput (fun _ => 0) 0 = reference_out wLayer wInput 0 :=
  ml_run_layer_matches_reference wLayer wInput (fun _ => 0)
    (by decide) (by decide) 0 (by decide)

/-- C2: padding neutrality of the tiling.  For every layer, input, output
group og and input group ig: (a) for every real neuron lane (og + c below
out_neurons) the raw tile sum equals the sum of the range-guarded per-feature
contributions, in which every zero-padded row contributes the literal 0 and
input values beyond in_features are never read; (b) padded output lanes (og +
k at or beyond out_neurons) have their software accumulator initialised to 0;
(c) ml_run_layer never stores to an output index at or beyond out_neurons:
those entries keep their previous value. -/
theorem padding_neutrality (L : LayerDense) (input out0 : Nat → Int) (og ig : Nat) :
    (∀ c : Fin 4, og + (c : Nat) < L.out_neurons →
      tileRawSum L input og ig c =
        ∑ r : Fin 4, tileGuarded L input (og + (c : Nat)) (ig + (r : Nat)))
  ∧ (∀ k : Fin 4, L.out_neurons ≤ og + (k : Nat) → accInit L og k = 0)
  ∧ (∀ j, L.out_neurons ≤ j → ml_run_layer L input out0 j = out0 j) := by
  refine ⟨fun c hc => tileRawSum_eq_guarded L input og ig c hc, ?_, ?_⟩
  · intro k hk
    unfold accInit
    rw [if_neg (by omega)]
  · intro j hj
    unfold ml_run_layer
    rw [runGroups_apply, dif_neg (by omega)]

/-- C2 witness: on the concrete 2-input, 2-neuron layer, the raw tile sum of
lane 0 equals its guarded form, the padded accumulator of lane 3 starts at 0,
and output index 5 (beyond the 2 real neurons) is never written. -/
theorem padding_neutrality_witness :
    tileRawSum wLayer wInput 0 0 0 =
      ∑ r : Fin 4, tileGuarded wLayer wInput (0 + ((0 : Fin 4) : Nat)) (0 + (r : Nat))
  ∧ accInit wLayer 0 ⟨3, by omega⟩ = 0
  ∧ ml_run_layer wLayer wInput (fun _ => 0) 5 = 0 :=
  ⟨(padding_neutrality wLayer wInput (fun _ => 0) 0 0).1 0 (by decide),
   (padding_neutrality wLayer wInput (fun _ => 0) 0 0).2.1 ⟨3, by omega⟩ (by decide),
   (padding_neutrality wLayer wInput (fun _ => 0) 0 0).2.2 5 (by decide)⟩
